import Mathlib

/-!
Shallow embedding of `verify_key_bot.py` (somysam12/keybot): a Telegram
key-distribution bot backed by an SQLite database.  The five durable tables
(channels, users, keys, sales, settings) become lists and records; each
handler becomes a pure function from database state (plus the injected
clock, the caller identity, the external membership-lookup capability and a
flag telling whether the persistence commit succeeds) to the new state and
the list of outward-visible events it produced.  Timestamps are integers
counting seconds; `timedelta(hours=h)` is `h * 3600` and
`timedelta(days=d)` is `d * 86400`.
-/

namespace KeyBot

/-- Row of the `users` table (`CREATE TABLE users`, verify_key_bot.py). -/
structure User where
  user_id : Int
  username : Option String
  verified : Bool
  last_key_time : Option Int
  total_keys_claimed : Nat
  first_seen : Int
deriving DecidableEq, Repr

/-- Row of the `keys` table. -/
structure Key where
  id : Nat
  key_text : String
  duration_days : Int
  meta_name : Option String
  meta_link : Option String
  used : Bool
  added_at : Int
deriving DecidableEq, Repr

/-- Row of the `sales` table (one claim record per assignment). -/
structure Sale where
  id : Nat
  user_id : Int
  username : Option String
  key_id : Nat
  key_text : String
  assigned_at : Int
  expires_at : Int
  active : Bool
  message_chat_id : Int
  message_id : Int
deriving DecidableEq, Repr

/-- The `settings` key/value table; only two keys are ever written
(`cooldown_hours`, stored by the admin flow after parsing a positive
integer, and `key_message`). -/
structure Settings where
  cooldown_hours : Option Int
  key_message : Option String
deriving DecidableEq, Repr

/-- The whole SQLite database.  `channels` is kept in id order (ids are
`AUTOINCREMENT`, so insertion order equals id order and ids are never
reused); `next_key_id` / `next_sale_id` model the `AUTOINCREMENT`
counters, which SQLite does not reset on `DELETE FROM`. -/
structure DB where
  channels : List String
  users : List User
  keys : List Key
  sales : List Sale
  settings : Settings
  next_key_id : Nat
  next_sale_id : Nat
deriving DecidableEq, Repr

/-- Empty database produced by `init_db`. -/
def init_db : DB :=
  { channels := [], users := [], keys := [], sales := [],
    settings := { cooldown_hours := none, key_message := none },
    next_key_id := 1, next_sale_id := 1 }

/-- A Telegram caller (`message.from_user` / `callback.from_user`). -/
structure Caller where
  id : Int
  username : Option String
  first_name : String
deriving DecidableEq, Repr

/-- `ADMIN_USERNAME = "tgshaitaan"` (verify_key_bot.py line 29). -/
def ADMIN_USERNAME : String := "tgshaitaan"

/-- `DEFAULT_COOLDOWN_HOURS = 48`. -/
def DEFAULT_COOLDOWN_HOURS : Int := 48

/-- Persistence failure surfaced to the caller (`Internal`). -/
inductive BotError where
  | internal
deriving DecidableEq, Repr

/-- Kinds of database writes, used to tag events in handler traces. -/
inductive WriteKind where
  | userUpsert
  | assignCommit
  | purgeCommit
deriving DecidableEq, Repr

/-- Outward-visible actions of a handler, in program order: a database
write, the delivery message carrying a key's text (`callback.message.answer`
at line 318), or a popup answer (`callback.answer`).  The cooldown popup
carries the number of hours it reports. -/
inductive Event where
  | write (w : WriteKind)
  | sendKey (text : String)
  | answer (text : String)
  | answerCooldown (hours : Int)
deriving DecidableEq, Repr

/-- Python `str.strip()` on the character list (whitespace on both ends). -/
def stripChars (l : List Char) : List Char :=
  ((l.dropWhile Char.isWhitespace).reverse.dropWhile Char.isWhitespace).reverse

/-- Python `str.strip()`. -/
def pyStrip (s : String) : String := String.mk (stripChars s.data)

/-- Python `str.lower()` (ASCII range; bot usernames and handles are ASCII). -/
def pyLower (s : String) : String := String.mk (s.data.map Char.toLower)

/-- Python `str.lstrip('@')`: drop every leading `@`. -/
def pyLstripAt (s : String) : String := String.mk (s.data.dropWhile (fun ch => ch == '@'))

/-- Does the string start with the given character? -/
def pyStartsWith (s : String) (c : Char) : Bool :=
  match s.data with
  | [] => false
  | c0 :: _ => c0 == c

/-- Python `str.split(sep)` for a one-character separator (keeps empty
pieces; `"".split(sep) == [""]`). -/
def splitCharAux (sep : Char) : List Char → List (List Char)
  | [] => [[]]
  | c :: cs =>
    let r := splitCharAux sep cs
    if c == sep then [] :: r
    else
      match r with
      | [] => [[c]]
      | g :: gs => (c :: g) :: gs

def pySplit (s : String) (sep : Char) : List String :=
  (splitCharAux sep s.data).map String.mk

/-- `is_admin(user_id, username)`: the configured `ADMIN_ID` or the
hardcoded admin username (lowercased, leading `@`s stripped, empty string
falsy) grant admin. -/
def is_admin (adminId : Int) (user_id : Int) (username : Option String) : Bool :=
  if user_id == adminId then true
  else
    match username with
    | none => false
    | some un =>
      if un != "" && (pyLstripAt (pyLower un) == pyLstripAt (pyLower ADMIN_USERNAME)) then
        true
      else false

/-- `ensure_user_record(user)`: insert the user on first contact, refresh
the stored username when it changed, otherwise do nothing.  The boolean
reports whether a row was written. -/
def ensure_user_record (db : DB) (now : Int) (c : Caller) : DB × Bool :=
  match db.users.find? (fun v => v.user_id == c.id) with
  | none =>
    let newUser : User :=
      { user_id := c.id, username := c.username, verified := false,
        last_key_time := none, total_keys_claimed := 0, first_seen := now }
    ({ db with users := db.users ++ [newUser] }, true)
  | some u =>
    if u.username ≠ c.username then
      let users' := db.users.map
        (fun v => if v.user_id == c.id then { v with username := c.username } else v)
      ({ db with users := users' }, true)
    else (db, false)

/-- `add_channel(username)`: normalize to `@handle`, insert; the UNIQUE
constraint turns a duplicate into a `False` result with no change. -/
def normalizeHandle (s : String) : String :=
  let t := pyStrip s
  if pyStartsWith t '@' then t else "@" ++ t

def add_channel (db : DB) (s : String) : DB × Bool :=
  let u := normalizeHandle s
  if db.channels.contains u then (db, false)
  else ({ db with channels := db.channels ++ [u] }, true)

/-- `remove_channel(username)`. -/
def remove_channel (db : DB) (s : String) : DB :=
  let u := normalizeHandle s
  { db with channels := db.channels.filter (fun v => v ≠ u) }

/-- Statuses accepted by the membership check
(`member.status in ['member', 'administrator', 'creator']`). -/
def memberStatusOk (s : String) : Bool :=
  s == "member" || s == "administrator" || s == "creator"

/-- Result of one `bot.get_chat_member` call: either a status string or a
raised exception. -/
abbrev Lookup := String → Except Unit String

/-- Did a lookup result pass the membership test? -/
def statusOk (r : Except Unit String) : Bool :=
  match r with
  | Except.ok s => memberStatusOk s
  | Except.error _ => false

/-- The failure message `is_user_verified` builds for channel `c`. -/
def failMsg (c : String) (r : Except Unit String) : String :=
  match r with
  | Except.ok _ => "Please join " ++ c ++ " first!"
  | Except.error _ => "❌ Bot is not admin in " ++ c ++ ". Please add bot as admin!"

/-- The loop body of `is_user_verified`: walk the channels in id order,
short-circuiting at the first failure. -/
def check_channels (lookup : Lookup) : List String → Bool × String
  | [] => (true, "✅ Verified!")
  | c :: rest =>
    match lookup c with
    | Except.error e => (false, failMsg c (Except.error e))
    | Except.ok s =>
      if memberStatusOk s then check_channels lookup rest
      else (false, failMsg c (Except.ok s))

/-- `is_user_verified(user_id)`: an empty registry returns `(True, "")`
before the loop. -/
def is_user_verified (channels : List String) (lookup : Lookup) : Bool × String :=
  if channels.isEmpty then (true, "")
  else check_channels lookup channels

/-- `mark_verified(user_id)`. -/
def mark_verified (db : DB) (uid : Int) : DB :=
  let users' := db.users.map (fun u => if u.user_id == uid then { u with verified := true } else u)
  { db with users := users' }

/-- The effective cooldown in hours:
`get_setting("cooldown_hours", str(DEFAULT_COOLDOWN_HOURS))` then `int(...)`. -/
def cooldownHours (db : DB) : Int :=
  db.settings.cooldown_hours.getD DEFAULT_COOLDOWN_HOURS

/-- `can_claim_key(user_id)`: true when the user row is missing, the user
never claimed, or `now - last_key_time >= timedelta(hours=cooldown_hours)`. -/
def can_claim_key (db : DB) (now : Int) (uid : Int) : Bool :=
  match db.users.find? (fun v => v.user_id == uid) with
  | none => true
  | some u =>
    match u.last_key_time with
    | none => true
    | some t => decide (now - t ≥ cooldownHours db * 3600)

/-- `get_next_key()`:
`SELECT id, key_text, duration_days FROM keys WHERE used=0 ORDER BY id LIMIT 1`. -/
def get_next_key (keys : List Key) : Option Key :=
  (keys.filter (fun k => !k.used)).argmin Key.id

/-- The `UPDATE users SET last_key_time=?, total_keys_claimed =
total_keys_claimed + 1` effect on one row. -/
def updateClaim (now : Int) (u : User) : User :=
  { u with last_key_time := some now, total_keys_claimed := u.total_keys_claimed + 1 }

/-- The `INSERT INTO sales ...` row written by `assign_key_to_user`. -/
def claimSale (db : DB) (now : Int) (uid : Int) (uname : Option String)
    (kid : Nat) (ktext : String) (kdur : Int) (chatId msgId : Int) : Sale :=
  { id := db.next_sale_id, user_id := uid, username := uname, key_id := kid,
    key_text := ktext, assigned_at := now, expires_at := now + kdur * 86400,
    active := true, message_chat_id := chatId, message_id := msgId }

/-- The new database state committed by `assign_key_to_user`: mark the key
used, stamp the user's `last_key_time`, bump `total_keys_claimed`, and
append one `sales` row. -/
def applyAssign (db : DB) (now : Int) (uid : Int) (uname : Option String)
    (kid : Nat) (ktext : String) (kdur : Int) (chatId msgId : Int) : DB :=
  let keys' := db.keys.map (fun k => if k.id == kid then { k with used := true } else k)
  let users' := db.users.map (fun u => if u.user_id == uid then updateClaim now u else u)
  { db with
      keys := keys'
      users := users'
      sales := db.sales ++ [claimSale db now uid uname kid ktext kdur chatId msgId]
      next_sale_id := db.next_sale_id + 1 }

/-- `assign_key_to_user(...)`: all four statements run inside one SQLite
transaction closed by a single `commit`; a failed commit rolls everything
back, so either the whole `applyAssign` state is durable or none of it is
and the caller sees the raised (internal) error. -/
def assign_key_to_user (db : DB) (now : Int) (uid : Int) (uname : Option String)
    (kid : Nat) (ktext : String) (kdur : Int) (chatId msgId : Int)
    (persistOk : Bool) : Except BotError DB :=
  if persistOk then Except.ok (applyAssign db now uid uname kid ktext kdur chatId msgId)
  else Except.error BotError.internal

/-- `cb_start_claim`: enrollment upsert, live verification, cooldown check,
key selection, delivery message, then the assignment transaction.  The
delivery message is modeled by the key text it carries (`Event.sendKey`);
when the commit raises, the final `callback.answer` is never reached and
the state stays at the pre-assignment database. -/
def cb_start_claim (db : DB) (now : Int) (c : Caller) (lookup : Lookup)
    (persistOk : Bool) (chatId msgId : Int) : List Event × DB :=
  let db1 := (ensure_user_record db now c).1
  let ev0 : List Event :=
    if (ensure_user_record db now c).2 then [Event.write WriteKind.userUpsert] else []
  let v := is_user_verified db1.channels lookup
  if v.1 = false then (ev0 ++ [Event.answer v.2], db1)
  else if can_claim_key db1 now c.id = false then
    (ev0 ++ [Event.answerCooldown (cooldownHours db1)], db1)
  else
    match get_next_key db1.keys with
    | none =>
      (ev0 ++ [Event.answer "❌ No keys available right now. Please try again later."], db1)
    | some k =>
      match assign_key_to_user db1 now c.id c.username k.id k.key_text k.duration_days
          chatId msgId persistOk with
      | Except.ok db2 =>
        (ev0 ++ [Event.sendKey k.key_text, Event.write WriteKind.assignCommit,
                 Event.answer "🎁 Key assigned successfully!"], db2)
      | Except.error _ => (ev0 ++ [Event.sendKey k.key_text], db1)

/-- `cb_verify`: enrollment upsert, then `mark_verified` when the live
membership check passes. -/
def cb_verify (db : DB) (now : Int) (c : Caller) (lookup : Lookup) : DB :=
  let db1 := (ensure_user_record db now c).1
  if (is_user_verified db1.channels lookup).1 then mark_verified db1 c.id else db1

/-- The purge transaction run by `cb_confirm_delete_all_keys`:
`DELETE FROM keys; DELETE FROM sales;
UPDATE users SET last_key_time = NULL, total_keys_claimed = 0`. -/
def purge_transaction (db : DB) : DB :=
  let users' := db.users.map (fun u => { u with last_key_time := none, total_keys_claimed := 0 })
  { db with keys := [], sales := [], users := users' }

/-- `cb_confirm_delete_all_keys`: admin gate, then the purge transaction
inside try/except (a failed commit leaves the state unchanged). -/
def cb_confirm_delete_all_keys (adminId : Int) (db : DB) (c : Caller)
    (persistOk : Bool) : List Event × DB :=
  if is_admin adminId c.id c.username = false then ([Event.answer "❌ Unauthorized"], db)
  else if persistOk then
    ([Event.write WriteKind.purgeCommit, Event.answer "✅ All keys deleted successfully!"],
     purge_transaction db)
  else ([Event.answer "❌ Error occurred"], db)

/-- Decimal value of a digit list. -/
def digitsToNat (l : List Char) : Nat :=
  l.foldl (fun a c => a * 10 + (c.toNat - 48)) 0

/-- One or more decimal digits, or nothing. -/
def parseDigits (l : List Char) : Option Nat :=
  if l.isEmpty then none
  else if l.all Char.isDigit then some (digitsToNat l) else none

/-- Python `int(s)` on the text fields the bot parses: optional surrounding
whitespace, an optional sign, then decimal digits (digit-group underscores
are not used by any input the bot documents and are not modeled). -/
def parsePyInt (s : String) : Option Int :=
  match stripChars s.data with
  | '-' :: rest => (parseDigits rest).map (fun n => -(n : Int))
  | '+' :: rest => (parseDigits rest).map (fun n => (n : Int))
  | t => (parseDigits t).map (fun n => (n : Int))

/-- Outcome of one line of the bulk-add loop in `handle_admin_input`:
fewer than two pipe-separated fields falls through silently, a duration
that `int()` rejects raises `ValueError` (counted as an error), anything
else inserts a key. -/
inductive LineResult where
  | skipped
  | badDuration
  | parsed (key_text : String) (duration : Int) (meta_name meta_link : Option String)
deriving DecidableEq, Repr

def parseKeyLine (line : String) : LineResult :=
  let parts := (pySplit line '|').map pyStrip
  match parts with
  | p0 :: p1 :: rest =>
    match parsePyInt p1 with
    | some d => LineResult.parsed p0 d (rest.get? 0) (rest.get? 1)
    | none => LineResult.badDuration
  | _ => LineResult.skipped

/-- The bulk-add loop over already-split lines, returning the new state and
the `(added, errors)` counters reported to the operator. -/
def add_keys_lines (now : Int) : DB → List String → DB × Nat × Nat
  | db, [] => (db, 0, 0)
  | db, line :: rest =>
    match parseKeyLine line with
    | LineResult.parsed kt d nm lk =>
      let newKey : Key :=
        { id := db.next_key_id, key_text := kt, duration_days := d,
          meta_name := nm, meta_link := lk, used := false, added_at := now }
      let db' := { db with keys := db.keys ++ [newKey], next_key_id := db.next_key_id + 1 }
      let r := add_keys_lines now db' rest
      (r.1, r.2.1 + 1, r.2.2)
    | LineResult.badDuration =>
      let r := add_keys_lines now db rest
      (r.1, r.2.1, r.2.2 + 1)
    | LineResult.skipped => add_keys_lines now db rest

/-- The bulk-add branch of `handle_admin_input`
(`lines = message.text.strip().split('\n')` then the per-line loop). -/
def handle_add_keys (db : DB) (now : Int) (text : String) : DB × Nat × Nat :=
  add_keys_lines now db (pySplit (pyStrip text) '\n')

/-- The set-cooldown branch of `handle_admin_input`: parse, reject values
below 1 hour, otherwise store. -/
def handle_set_cooldown (db : DB) (text : String) : DB :=
  match parsePyInt text with
  | some h =>
    if h < 1 then db
    else { db with settings := { db.settings with cooldown_hours := some h } }
  | none => db

/-- The set-custom-message branch of `handle_admin_input`. -/
def handle_set_key_msg (db : DB) (text : String) : DB :=
  { db with settings := { db.settings with key_message := some text } }

/-- The database-mutating operations of the bot, for the reachable-state
invariants.  Read-only handlers (stats, history, listings) do not change
state and are omitted. -/
inductive Op where
  | start (now : Int) (c : Caller)
  | verify (now : Int) (c : Caller) (lookup : Lookup)
  | claim (now : Int) (c : Caller) (lookup : Lookup) (persistOk : Bool) (chatId msgId : Int)
  | addChannel (text : String)
  | removeChannel (text : String)
  | setCooldown (text : String)
  | setKeyMsg (text : String)
  | addKeys (now : Int) (text : String)
  | purge (adminId : Int) (c : Caller) (persistOk : Bool)

/-- One sequential step of the bot. -/
def step (db : DB) : Op → DB
  | Op.start now c => (ensure_user_record db now c).1
  | Op.verify now c lookup => cb_verify db now c lookup
  | Op.claim now c lookup pOk cid mid => (cb_start_claim db now c lookup pOk cid mid).2
  | Op.addChannel t => (add_channel db t).1
  | Op.removeChannel t => remove_channel db t
  | Op.setCooldown t => handle_set_cooldown db t
  | Op.setKeyMsg t => handle_set_key_msg db t
  | Op.addKeys now t => (handle_add_keys db now t).1
  | Op.purge adminId c pOk => (cb_confirm_delete_all_keys adminId db c pOk).2

/-- States reachable by sequential execution from the empty database. -/
inductive Reachable : DB → Prop
  | init : Reachable init_db
  | next {db : DB} (op : Op) : Reachable db → Reachable (step db op)

/-- First key text delivered in a handler trace. -/
def firstSent : List Event → Option String
  | [] => none
  | Event.sendKey t :: _ => some t
  | _ :: rest => firstSent rest

/-- Spec-side definition (refinement target for C4), following the spec's
words: the derived number of whole hours remaining until the user's
cooldown expires, given the claim instant `t` and the configured hours. -/
def hours_remaining_spec (now t ch : Int) : Int :=
  (t + ch * 3600 - now) / 3600

/-! Concrete fixtures used by witnesses and counterexamples. -/

/-- A lookup that reports membership everywhere. -/
def okLookup : Lookup := fun _ => Except.ok "member"

/-- An enrolled, verified user who has never claimed. -/
def fifoUser : User :=
  { user_id := 1, username := some "u", verified := true, last_key_time := none,
    total_keys_claimed := 0, first_seen := 0 }

/-- The caller matching `fifoUser`. -/
def fifoCaller : Caller := { id := 1, username := some "u", first_name := "U" }

/-- An unconsumed 30-day key with a given id and text. -/
def mkKey (n : Nat) (t : String) : Key :=
  { id := n, key_text := t, duration_days := 30, meta_name := none, meta_link := none,
    used := false, added_at := 0 }

/-- Pool with K1, K2, K3 inserted in that order. -/
def fifoDB : DB :=
  { init_db with
      users := [fifoUser]
      keys := [mkKey 1 "K1", mkKey 2 "K2", mkKey 3 "K3"]
      next_key_id := 4 }

/-- Three sequential eligible claims, 48 hours apart (the default cooldown). -/
def fifoRun1 : List Event × DB := cb_start_claim fifoDB 0 fifoCaller okLookup true 0 0

def fifoRun2 : List Event × DB := cb_start_claim fifoRun1.2 172800 fifoCaller okLookup true 0 0

def fifoRun3 : List Event × DB := cb_start_claim fifoRun2.2 345600 fifoCaller okLookup true 0 0

/-- One key, no users yet: a first-time caller claiming. -/
def freshDB : DB := { init_db with keys := [mkKey 1 "K1"], next_key_id := 2 }

/-- An enrolled user who claimed at time 0 (cooldown running). -/
def cdUser : User :=
  { user_id := 1, username := some "u", verified := true, last_key_time := some 0,
    total_keys_claimed := 1, first_seen := 0 }

/-- Database in which `fifoCaller` is one hour into the default cooldown. -/
def cdDB : DB := { init_db with users := [cdUser] }

end KeyBot

namespace KeyBot

/-! Helper lemmas shared by several claim theorems. -/

lemma ensure_user_record_frame (db : DB) (now : Int) (c : Caller) :
    ((ensure_user_record db now c).1).keys = db.keys ∧
    ((ensure_user_record db now c).1).sales = db.sales ∧
    ((ensure_user_record db now c).1).channels = db.channels ∧
    ((ensure_user_record db now c).1).settings = db.settings ∧
    ((ensure_user_record db now c).1).next_key_id = db.next_key_id := by
  unfold ensure_user_record
  rcases h : db.users.find? (fun v => v.user_id == c.id) with _ | u
  · simp [h]
  · by_cases hn : u.username = c.username <;> simp [h, hn]

lemma ensure_user_record_noop (db : DB) (now : Int) (c : Caller) (u : User)
    (hu : db.users.find? (fun v => v.user_id == c.id) = some u)
    (hname : u.username = c.username) :
    ensure_user_record db now c = (db, false) := by
  simp [ensure_user_record, hu, hname]

lemma can_claim_key_false_of_within (db : DB) (now : Int) (uid : Int) (u : User) (t : Int)
    (hu : db.users.find? (fun v => v.user_id == uid) = some u)
    (hlast : u.last_key_time = some t)
    (hlt : now - t < cooldownHours db * 3600) :
    can_claim_key db now uid = false := by
  simp only [can_claim_key, hu, hlast, decide_eq_false_iff_not]
  omega

/-- The cooldown-rejection branch of `cb_start_claim` for an enrolled
caller whose stored username is current. -/
lemma claim_cooldown_branch (db : DB) (now : Int) (c : Caller) (u : User) (t : Int)
    (lookup : Lookup) (pOk : Bool) (cid mid : Int)
    (hu : db.users.find? (fun v => v.user_id == c.id) = some u)
    (hname : u.username = c.username)
    (hlast : u.last_key_time = some t)
    (hlt : now - t < cooldownHours db * 3600)
    (hver : (is_user_verified db.channels lookup).1 = true) :
    cb_start_claim db now c lookup pOk cid mid = ([Event.answerCooldown (cooldownHours db)], db) := by
  have hens := ensure_user_record_noop db now c u hu hname
  have hcc := can_claim_key_false_of_within db now c.id u t hu hlast hlt
  simp [cb_start_claim, hens, hver, hcc]

lemma get_next_key_some (keys : List Key) (k : Key) (h : get_next_key keys = some k) :
    k ∈ keys ∧ k.used = false := by
  have hmem : k ∈ keys.filter (fun x => !x.used) := List.argmin_mem h
  have := List.mem_filter.mp hmem
  exact ⟨this.1, by simpa using this.2⟩

lemma ite_true_false_eq_true {c : Prop} [Decidable c] : (if c then true else false) = true ↔ c := by
  by_cases h : c <;> simp [h]

/-- C10: `is_admin` returns true exactly when the caller id equals the
configured operator id or the supplied username, lowercased with its
leading `@`s stripped, equals the hardcoded `"tgshaitaan"` (the empty
username never matches); hence the username match grants admin whatever
the configured operator id is, and nobody else passes the check. -/
theorem c10_is_admin_characterization (adminId user_id : Int) (username : Option String) :
    (is_admin adminId user_id username = true ↔
      user_id = adminId ∨
        ∃ un, username = some un ∧ un ≠ "" ∧ pyLstripAt (pyLower un) = "tgshaitaan") ∧
    (∀ a : Int, is_admin a user_id (some "tgshaitaan") = true) := by
  have hA : pyLstripAt (pyLower ADMIN_USERNAME) = "tgshaitaan" := by decide
  constructor
  · rcases username with _ | un <;> by_cases h : user_id = adminId <;>
      simp [is_admin, h, hA, ite_true_false_eq_true, Bool.and_eq_true, bne_iff_ne, beq_iff_eq]
  · intro a
    by_cases h : a = user_id
    · simp [is_admin, h]
    · have hne : ¬((user_id == a) = true) := by simp [beq_iff_eq]; omega
      simp only [is_admin, hne]
      decide

/-- C3: the cooldown predicate `can_claim_key` accepts exactly when the
user's `last_key_time` is unset or `now - last_key_time` is at least
`cooldown_hours * 3600` seconds (boundary inclusive), with
`cooldown_hours` read from the settings store and defaulting to 48; an
attempt strictly inside the window is rejected with the cooldown popup. -/
theorem c3_cooldown_predicate (db : DB) (now : Int) (c : Caller) (u : User)
    (hu : db.users.find? (fun v => v.user_id == c.id) = some u) :
    (can_claim_key db now c.id = true ↔
      u.last_key_time = none ∨
        ∃ t, u.last_key_time = some t ∧ now - t ≥ cooldownHours db * 3600) ∧
    (db.settings.cooldown_hours = none → cooldownHours db = 48) ∧
    (∀ (lookup : Lookup) (pOk : Bool) (cid mid t : Int),
      u.username = c.username → u.last_key_time = some t →
      now - t < cooldownHours db * 3600 →
      (is_user_verified db.channels lookup).1 = true →
      cb_start_claim db now c lookup pOk cid mid = ([Event.answerCooldown (cooldownHours db)], db)) := by
  refine ⟨?_, ?_, ?_⟩
  · simp only [can_claim_key, hu]
    rcases hl : u.last_key_time with _ | t <;> simp [hl, decide_eq_true_eq]
  · intro h
    simp [cooldownHours, h, DEFAULT_COOLDOWN_HOURS]
  · intro lookup pOk cid mid t hname hlast hlt hver
    exact claim_cooldown_branch db now c u t lookup pOk cid mid hu hname hlast hlt hver

/-- Witness for C3 at a concrete state: `cdUser` claimed at time 0, so at
`now = 172800` (exactly the 48-hour boundary) the predicate accepts. -/
theorem c3_cooldown_predicate_witness :
    can_claim_key cdDB 172800 fifoCaller.id = true ↔
      cdUser.last_key_time = none ∨
        ∃ t, cdUser.last_key_time = some t ∧ 172800 - t ≥ cooldownHours cdDB * 3600 :=
  (c3_cooldown_predicate cdDB 172800 fifoCaller cdUser (by decide)).1

/-- C4 counterexample: one hour into the default 48-hour cooldown the
derived hours remaining are 47, yet the popup reports the full configured
48 — so the reported N is not the derived remaining time. -/
theorem c4_counterexample :
    (cb_start_claim cdDB 3600 fifoCaller okLookup true 0 0).1 = [Event.answerCooldown 48] ∧
    hours_remaining_spec 3600 0 (cooldownHours cdDB) = 47 ∧ (48 : Int) ≠ 47 := by
  refine ⟨by decide, by decide, by decide⟩

/-- C4 amended: when a claim is rejected on cooldown, the reported N is the
configured `cooldown_hours` read from the settings store (default 48) —
the same constant for every instant inside the window — rather than the
derived hours remaining. -/
theorem c4_reported_hours (db : DB) (now : Int) (c : Caller) (u : User) (t : Int)
    (lookup : Lookup) (pOk : Bool) (cid mid : Int)
    (hu : db.users.find? (fun v => v.user_id == c.id) = some u)
    (hname : u.username = c.username)
    (hlast : u.last_key_time = some t)
    (hlt : now - t < cooldownHours db * 3600)
    (hver : (is_user_verified db.channels lookup).1 = true) :
    cb_start_claim db now c lookup pOk cid mid = ([Event.answerCooldown (cooldownHours db)], db) :=
  claim_cooldown_branch db now c u t lookup pOk cid mid hu hname hlast hlt hver

/-- Witness for C4's amended theorem at the counterexample state. -/
theorem c4_reported_hours_witness :
    cb_start_claim cdDB 3600 fifoCaller okLookup true 0 0 =
      ([Event.answerCooldown (cooldownHours cdDB)], cdDB) :=
  c4_reported_hours cdDB 3600 fifoCaller cdUser 0 okLookup true 0 0 (by decide) (by decide)
    (by decide) (by decide) (by decide)

/-- C7: a confirmed purge empties the key and claim-record tables and
resets every user's `last_key_time` and `total_keys_claimed`, while the
channel registry, the settings store and the users' identity fields are
untouched. -/
theorem c7_purge_frame (adminId : Int) (db : DB) (c : Caller) (db' : DB)
    (hadm : is_admin adminId c.id c.username = true)
    (hdb : db' = (cb_confirm_delete_all_keys adminId db c true).2) :
    db'.keys = [] ∧ db'.sales = [] ∧
    (∀ u ∈ db'.users, u.last_key_time = none ∧ u.total_keys_claimed = 0) ∧
    db'.channels = db.channels ∧ db'.settings = db.settings ∧
    db'.users.map (fun u => (u.user_id, u.username, u.verified, u.first_seen)) =
      db.users.map (fun u => (u.user_id, u.username, u.verified, u.first_seen)) := by
  subst hdb
  simp only [cb_confirm_delete_all_keys, hadm]
  refine ⟨by simp [purge_transaction], by simp [purge_transaction], ?_, by simp [purge_transaction],
    by simp [purge_transaction], ?_⟩
  · intro u hu
    simp [purge_transaction] at hu
    rcases hu with ⟨v, _, rfl⟩
    exact ⟨rfl, rfl⟩
  · simp [purge_transaction, List.map_map]

/-- Witness for C7 on a concrete populated database. -/
theorem c7_purge_frame_witness :
    ((cb_confirm_delete_all_keys 7 fifoDB { id := 7, username := some "x", first_name := "X" } true).2).keys = [] :=
  (c7_purge_frame 7 fifoDB { id := 7, username := some "x", first_name := "X" }
    ((cb_confirm_delete_all_keys 7 fifoDB { id := 7, username := some "x", first_name := "X" } true).2)
    (by decide) rfl).1

/-- C1: a granted claim commits atomically.  With the commit succeeding,
the chosen key (and only it) is marked used, the user's `last_key_time`
becomes the assignment instant and `total_keys_claimed` is incremented,
exactly one claim record is appended, and channels/settings are untouched;
with the commit failing the caller receives `Internal` and no new state is
produced, so none of the four effects is visible. -/
theorem c1_assign_atomic (db : DB) (now uid : Int) (uname : Option String)
    (kid : Nat) (ktext : String) (kdur chatId msgId : Int) (u : User)
    (hu : db.users.find? (fun v => v.user_id == uid) = some u) :
    assign_key_to_user db now uid uname kid ktext kdur chatId msgId false =
      Except.error BotError.internal ∧
    ∃ db', assign_key_to_user db now uid uname kid ktext kdur chatId msgId true = Except.ok db' ∧
      (∀ k' ∈ db'.keys, (k'.id = kid → k'.used = true) ∧ (k'.id ≠ kid → k' ∈ db.keys)) ∧
      (∀ k ∈ db.keys, k.id ≠ kid → k ∈ db'.keys) ∧
      updateClaim now u ∈ db'.users ∧
      (∀ v ∈ db.users, v.user_id ≠ uid → v ∈ db'.users) ∧
      db'.sales = db.sales ++ [claimSale db now uid uname kid ktext kdur chatId msgId] ∧
      db'.channels = db.channels ∧ db'.settings = db.settings := by
  refine ⟨rfl, applyAssign db now uid uname kid ktext kdur chatId msgId, rfl,
    ?_, ?_, ?_, ?_, rfl, rfl, rfl⟩
  · intro k' hk'
    rcases List.mem_map.mp hk' with ⟨k0, hk0, rfl⟩
    by_cases h : (k0.id == kid) = true
    · have hid : k0.id = kid := by simpa using h
      rw [if_pos h]
      exact ⟨fun _ => rfl, fun hne => absurd hid hne⟩
    · have hid : k0.id ≠ kid := by simpa using h
      rw [if_neg h]
      exact ⟨fun heq => absurd heq hid, fun _ => hk0⟩
  · intro k hk hne
    have h : ¬((k.id == kid) = true) := by simpa using hne
    exact List.mem_map.mpr ⟨k, hk, by rw [if_neg h]⟩
  · have hmem := List.mem_of_find?_eq_some hu
    have hpu : (u.user_id == uid) = true := by simpa using List.find?_some hu
    exact List.mem_map.mpr ⟨u, hmem, by rw [if_pos hpu]⟩
  · intro v hv hne
    have h : ¬((v.user_id == uid) = true) := by simpa using hne
    exact List.mem_map.mpr ⟨v, hv, by rw [if_neg h]⟩

/-- Witness for C1: a failed commit at a concrete state yields `Internal`. -/
theorem c1_assign_atomic_witness :
    assign_key_to_user fifoDB 5 1 (some "u") 1 "K1" 30 9 9 false =
      Except.error BotError.internal :=
  (c1_assign_atomic fifoDB 5 1 (some "u") 1 "K1" 30 9 9 fifoUser (by decide)).1

/-- The short-circuit behaviour of the verification loop: the first
channel failing the membership test (or whose lookup raises) decides the
result, whatever the later channels and their lookups would say. -/
lemma check_channels_stop (lookup : Lookup) (pre : List String) :
    ∀ (c : String) (post : List String),
      (∀ ch ∈ pre, statusOk (lookup ch) = true) → statusOk (lookup c) = false →
      check_channels lookup (pre ++ c :: post) = (false, failMsg c (lookup c)) := by
  induction pre with
  | nil =>
    intro c post _ hc
    rcases hl : lookup c with e | s
    · simp [check_channels, hl]
    · have hm : memberStatusOk s = false := by simpa [statusOk, hl] using hc
      simp [check_channels, hl, hm]
  | cons a pre ih =>
    intro c post hpre hc
    have ha := hpre a (List.mem_cons_self a pre)
    rcases hl : lookup a with e | s
    · rw [hl] at ha
      simp [statusOk] at ha
    · have hm : memberStatusOk s = true := by simpa [statusOk, hl] using ha
      simp only [List.cons_append, check_channels, hl, hm, if_pos]
      exact ih c post (fun ch hch => hpre ch (List.mem_cons_of_mem a hch)) hc

/-- C5: verification walks the registered channels in order and fails at
the first channel where the user is not a member/administrator/creator or
where the lookup raises, returning `(false, message-referencing-that-
channel)` regardless of every later channel; an empty registry verifies
every user. -/
theorem c5_verification_short_circuit (pre : List String) (c : String) (post : List String)
    (lookup : Lookup)
    (hpre : ∀ ch ∈ pre, statusOk (lookup ch) = true)
    (hc : statusOk (lookup c) = false) :
    is_user_verified (pre ++ c :: post) lookup = (false, failMsg c (lookup c)) ∧
    ∀ lk : Lookup, is_user_verified [] lk = (true, "") := by
  refine ⟨?_, fun lk => rfl⟩
  have hne : ¬((pre ++ c :: post).isEmpty = true) := by simp [List.isEmpty_iff]
  rw [is_user_verified, if_neg hne]
  exact check_channels_stop lookup pre c post hpre hc

/-- A lookup where the user joined `@good`, left `@bad`, and `@later`
would raise — which never matters, because `@bad` decides. -/
def lkC5 : Lookup := fun ch =>
  if ch == "@good" then Except.ok "member"
  else if ch == "@bad" then Except.ok "left" else Except.error ()

/-- Witness for C5: with channels `[@good, @bad, @later]` the walk stops
at `@bad` with the join prompt for `@bad`. -/
theorem c5_verification_short_circuit_witness :
    is_user_verified (["@good"] ++ "@bad" :: ["@later"]) lkC5 =
      (false, failMsg "@bad" (lkC5 "@bad")) :=
  (c5_verification_short_circuit ["@good"] "@bad" ["@later"] lkC5 (by decide) (by decide)).1

/-- Classification of one bulk-add input line: inserted. -/
def lineAdded (line : String) : Bool :=
  match parseKeyLine line with
  | LineResult.parsed _ _ _ _ => true
  | _ => false

/-- Classification of one bulk-add input line: counted as an error. -/
def lineBadDuration (line : String) : Bool :=
  match parseKeyLine line with
  | LineResult.badDuration => true
  | _ => false

lemma add_keys_lines_added (now : Int) (lines : List String) :
    ∀ db : DB, (add_keys_lines now db lines).2.1 = lines.countP lineAdded := by
  induction lines with
  | nil => intro db; simp [add_keys_lines]
  | cons l rest ih =>
    intro db
    cases hp : parseKeyLine l <;>
      simp [add_keys_lines, hp, List.countP_cons, lineAdded, ih]

lemma add_keys_lines_errors (now : Int) (lines : List String) :
    ∀ db : DB, (add_keys_lines now db lines).2.2 = lines.countP lineBadDuration := by
  induction lines with
  | nil => intro db; simp [add_keys_lines]
  | cons l rest ih =>
    intro db
    cases hp : parseKeyLine l <;>
      simp [add_keys_lines, hp, List.countP_cons, lineBadDuration, ih]

lemma add_keys_lines_length (now : Int) (lines : List String) :
    ∀ db : DB,
      ((add_keys_lines now db lines).1).keys.length = db.keys.length + lines.countP lineAdded := by
  induction lines with
  | nil => intro db; simp [add_keys_lines]
  | cons l rest ih =>
    intro db
    cases hp : parseKeyLine l <;>
      simp [add_keys_lines, hp, List.countP_cons, lineAdded, ih]
    omega

/-- C6 counterexample: the line `"K|-5"` has a duration that is an integer
but not a positive one; the code inserts it as a key of duration −5 and
reports zero errors instead of skipping it and counting an error. -/
theorem c6_counterexample :
    (handle_add_keys init_db 0 "K|-5").2.1 = 1 ∧
    (handle_add_keys init_db 0 "K|-5").2.2 = 0 ∧
    ((handle_add_keys init_db 0 "K|-5").1).keys.map Key.duration_days = [-5] ∧
    ¬((0 : Int) < -5) := by
  refine ⟨by decide, by decide, by decide, by decide⟩

/-- C6 amended: each line is classified independently — a line with at
least two pipe-separated fields whose duration parses as an integer (sign
unchecked, so non-positive durations are accepted) inserts a key, a line
whose duration fails integer parsing is counted as an error without
aborting the batch, and a line with fewer than two fields is skipped
without being counted; the reported counts are exactly these per-line
tallies, and on the spec's example input 2 keys are added and 1 error is
reported. -/
theorem c6_bulk_add_counts (db : DB) (now : Int) (text : String) :
    (handle_add_keys db now text).2.1 = (pySplit (pyStrip text) '\n').countP lineAdded ∧
    (handle_add_keys db now text).2.2 = (pySplit (pyStrip text) '\n').countP lineBadDuration ∧
    ((handle_add_keys db now text).1).keys.length =
      db.keys.length + (handle_add_keys db now text).2.1 ∧
    (handle_add_keys init_db 0 "K1|30\nBAD|notanumber\nK2|7|Label|http://x").2 = (2, 1) := by
  refine ⟨add_keys_lines_added now _ db, add_keys_lines_errors now _ db, ?_, by decide⟩
  simp only [handle_add_keys]
  rw [add_keys_lines_added now (pySplit (pyStrip text) '\n') db]
  exact add_keys_lines_length now (pySplit (pyStrip text) '\n') db

/-- C2: `get_next_key` returns an unconsumed key of minimal id whenever
one exists; when every key is consumed, an otherwise-eligible claim is
rejected with the pool-exhausted popup and the state is unchanged; and on
the concrete pool K1, K2, K3 three sequential eligible claims deliver K1,
then K2, then K3. -/
theorem c2_fifo_selection (db : DB) (now : Int) (c : Caller) (lookup : Lookup)
    (cid mid : Int) (u : User) (pOk : Bool)
    (hu : db.users.find? (fun v => v.user_id == c.id) = some u)
    (hname : u.username = c.username)
    (hver : (is_user_verified db.channels lookup).1 = true)
    (hcd : can_claim_key db now c.id = true) :
    (∀ k ∈ db.keys, k.used = false →
      ∃ k0, get_next_key db.keys = some k0 ∧ k0 ∈ db.keys ∧ k0.used = false ∧
        ∀ k' ∈ db.keys, k'.used = false → k0.id ≤ k'.id) ∧
    ((∀ k ∈ db.keys, k.used = true) →
      cb_start_claim db now c lookup pOk cid mid =
        ([Event.answer "❌ No keys available right now. Please try again later."], db)) ∧
    (firstSent fifoRun1.1 = some "K1" ∧ firstSent fifoRun2.1 = some "K2" ∧
      firstSent fifoRun3.1 = some "K3") := by
  refine ⟨?_, ?_, by decide, by decide, by decide⟩
  · intro k hk hkf
    have hkmem : k ∈ db.keys.filter (fun x => !x.used) :=
      List.mem_filter.mpr ⟨hk, by simp [hkf]⟩
    cases h : (db.keys.filter (fun x => !x.used)).argmin Key.id with
    | none =>
      exfalso
      rw [List.argmin_eq_none] at h
      rw [h] at hkmem
      exact (List.not_mem_nil k) hkmem
    | some k0 =>
      have hmemf : k0 ∈ db.keys.filter (fun x => !x.used) := List.argmin_mem h
      have hmem := List.mem_filter.mp hmemf
      refine ⟨k0, h, hmem.1, by simpa using hmem.2, ?_⟩
      intro k' hk' hk'f
      exact List.le_of_mem_argmin (List.mem_filter.mpr ⟨hk', by simp [hk'f]⟩) h
  · intro hall
    have hnil : db.keys.filter (fun x => !x.used) = [] := by
      rw [List.filter_eq_nil_iff]
      intro a ha
      simp [hall a ha]
    have hnone : get_next_key db.keys = none := by
      show (db.keys.filter (fun x => !x.used)).argmin Key.id = none
      rw [hnil]
      exact List.argmin_nil _
    have hens := ensure_user_record_noop db now c u hu hname
    simp [cb_start_claim, hens, hver, hcd, hnone]

/-- Witness for C2: the three sequential claims on the concrete pool. -/
theorem c2_fifo_selection_witness :
    firstSent fifoRun1.1 = some "K1" ∧ firstSent fifoRun2.1 = some "K2" ∧
      firstSent fifoRun3.1 = some "K3" :=
  (c2_fifo_selection fifoDB 0 fifoCaller okLookup 0 0 fifoUser true (by decide) (by decide)
    (by decide) (by decide)).2.2

/-- Complete case analysis of `cb_start_claim`: the handler either stops
with a popup answer and the post-enrollment state, stops with the cooldown
popup, sends the key and fails to commit (state unchanged past
enrollment), or sends the key and commits the assignment. -/
lemma cb_start_claim_spec (db : DB) (now : Int) (c : Caller) (lookup : Lookup)
    (pOk : Bool) (cid mid : Int) :
    (∃ m, cb_start_claim db now c lookup pOk cid mid =
      ((if (ensure_user_record db now c).2 then [Event.write WriteKind.userUpsert] else []) ++
        [Event.answer m], (ensure_user_record db now c).1)) ∨
    cb_start_claim db now c lookup pOk cid mid =
      ((if (ensure_user_record db now c).2 then [Event.write WriteKind.userUpsert] else []) ++
        [Event.answerCooldown (cooldownHours (ensure_user_record db now c).1)],
       (ensure_user_record db now c).1) ∨
    ∃ k, get_next_key ((ensure_user_record db now c).1).keys = some k ∧
      ((pOk = false ∧ cb_start_claim db now c lookup pOk cid mid =
        ((if (ensure_user_record db now c).2 then [Event.write WriteKind.userUpsert] else []) ++
          [Event.sendKey k.key_text], (ensure_user_record db now c).1)) ∨
       (pOk = true ∧ cb_start_claim db now c lookup pOk cid mid =
        ((if (ensure_user_record db now c).2 then [Event.write WriteKind.userUpsert] else []) ++
          [Event.sendKey k.key_text, Event.write WriteKind.assignCommit,
           Event.answer "🎁 Key assigned successfully!"],
         applyAssign (ensure_user_record db now c).1 now c.id c.username k.id k.key_text
           k.duration_days cid mid))) := by
  by_cases hv : (is_user_verified ((ensure_user_record db now c).1).channels lookup).1 = false
  · refine Or.inl ⟨(is_user_verified ((ensure_user_record db now c).1).channels lookup).2, ?_⟩
    simp [cb_start_claim, hv]
  · have hv' : (is_user_verified ((ensure_user_record db now c).1).channels lookup).1 = true := by
      revert hv
      cases (is_user_verified ((ensure_user_record db now c).1).channels lookup).1 <;> simp
    by_cases hcc : can_claim_key (ensure_user_record db now c).1 now c.id = false
    · exact Or.inr (Or.inl (by simp [cb_start_claim, hv', hcc]))
    · have hcc' : can_claim_key (ensure_user_record db now c).1 now c.id = true := by
        revert hcc
        cases can_claim_key (ensure_user_record db now c).1 now c.id <;> simp
      cases hk : get_next_key ((ensure_user_record db now c).1).keys with
      | none =>
        refine Or.inl ⟨"❌ No keys available right now. Please try again later.", ?_⟩
        simp [cb_start_claim, hv', hcc', hk]
      | some k =>
        refine Or.inr (Or.inr ⟨k, rfl, ?_⟩)
        cases pOk
        · exact Or.inl ⟨rfl, by simp [cb_start_claim, hv', hcc', hk, assign_key_to_user]⟩
        · exact Or.inr ⟨rfl, by simp [cb_start_claim, hv', hcc', hk, assign_key_to_user]⟩

/-- C9 counterexample: for a first-time caller the enrollment upsert is a
database write that happens strictly before the key message is sent, so
"the database is never mutated before the key has been sent" fails. -/
theorem c9_counterexample :
    freshDB.users = [] ∧
    (cb_start_claim freshDB 0 fifoCaller okLookup true 5 6).1 =
      [Event.write WriteKind.userUpsert, Event.sendKey "K1", Event.write WriteKind.assignCommit,
       Event.answer "🎁 Key assigned successfully!"] ∧
    (cb_start_claim freshDB 0 fifoCaller okLookup true 5 6).1.take 1 =
      [Event.write WriteKind.userUpsert] := by
  refine ⟨by decide, by decide, by decide⟩

/-- C9 amended: whenever the assignment commit appears in the claim trace
it is immediately preceded by the key-delivery send, so none of the four
claim effects is written before the key has been sent (only the enrollment
upsert may precede it); and when the commit fails after delivery, the key
and claim-record tables are unchanged and the key that was sent is still
the unconsumed key `get_next_key` would hand out next. -/
theorem c9_send_before_commit (db : DB) (now : Int) (c : Caller) (lookup : Lookup)
    (cid mid : Int) :
    (∀ pOk : Bool,
      Event.write WriteKind.assignCommit ∈ (cb_start_claim db now c lookup pOk cid mid).1 →
      ∃ pre kt post, (cb_start_claim db now c lookup pOk cid mid).1 =
        pre ++ Event.sendKey kt :: Event.write WriteKind.assignCommit :: post) ∧
    ((cb_start_claim db now c lookup false cid mid).2.keys = db.keys ∧
     (cb_start_claim db now c lookup false cid mid).2.sales = db.sales) ∧
    (∀ kt, Event.sendKey kt ∈ (cb_start_claim db now c lookup false cid mid).1 →
      ∃ k, get_next_key db.keys = some k ∧ k.key_text = kt ∧ k.used = false ∧
        get_next_key ((cb_start_claim db now c lookup false cid mid).2).keys = some k) := by
  obtain ⟨e1, e2, _, _, _⟩ := ensure_user_record_frame db now c
  refine ⟨?_, ?_, ?_⟩
  · intro pOk hmem
    rcases cb_start_claim_spec db now c lookup pOk cid mid with ⟨m, heq⟩ | heq |
      ⟨k, hk, ⟨hp, heq⟩ | ⟨hp, heq⟩⟩
    · rw [heq] at hmem
      rcases List.mem_append.mp hmem with h | h
      · revert h
        cases (ensure_user_record db now c).2 <;> simp
      · simp at h
    · rw [heq] at hmem
      rcases List.mem_append.mp hmem with h | h
      · revert h
        cases (ensure_user_record db now c).2 <;> simp
      · simp at h
    · rw [heq] at hmem
      rcases List.mem_append.mp hmem with h | h
      · revert h
        cases (ensure_user_record db now c).2 <;> simp
      · simp at h
    · refine ⟨if (ensure_user_record db now c).2 then [Event.write WriteKind.userUpsert] else [],
        k.key_text, [Event.answer "🎁 Key assigned successfully!"], ?_⟩
      rw [heq]
  · rcases cb_start_claim_spec db now c lookup false cid mid with ⟨m, heq⟩ | heq |
      ⟨k, hk, ⟨_, heq⟩ | ⟨hp, _⟩⟩
    · rw [heq]
      exact ⟨e1, e2⟩
    · rw [heq]
      exact ⟨e1, e2⟩
    · rw [heq]
      exact ⟨e1, e2⟩
    · simp at hp
  · intro kt hmem
    rcases cb_start_claim_spec db now c lookup false cid mid with ⟨m, heq⟩ | heq |
      ⟨k, hk, ⟨_, heq⟩ | ⟨hp, _⟩⟩
    · rw [heq] at hmem
      rcases List.mem_append.mp hmem with h | h
      · revert h
        cases (ensure_user_record db now c).2 <;> simp
      · simp at h
    · rw [heq] at hmem
      rcases List.mem_append.mp hmem with h | h
      · revert h
        cases (ensure_user_record db now c).2 <;> simp
      · simp at h
    · rw [e1] at hk
      have hks := get_next_key_some db.keys k hk
      rw [heq] at hmem
      rcases List.mem_append.mp hmem with h | h
      · revert h
        cases (ensure_user_record db now c).2 <;> simp
      · have hkt : kt = k.key_text := by simpa using h
        subst hkt
        refine ⟨k, hk, rfl, hks.2, ?_⟩
        rw [heq]
        show get_next_key ((ensure_user_record db now c).1).keys = some k
        rw [e1]
        exact hk
    · simp at hp

/-- Witness for C9's amended theorem: the concrete failed-commit run. -/
theorem c9_send_before_commit_witness :
    (cb_start_claim freshDB 0 fifoCaller okLookup false 5 6).2.keys = freshDB.keys ∧
    (cb_start_claim freshDB 0 fifoCaller okLookup false 5 6).2.sales = freshDB.sales :=
  (c9_send_before_commit freshDB 0 fifoCaller okLookup 5 6).2.1

/-! Invariants over all reachable states (C8). -/

/-- The key/claim-record integrity invariant: key ids are below the
`AUTOINCREMENT` counter and pairwise distinct, claim records reference ids
below the counter and pairwise distinct ids, and every claim record that
references a still-present key references a consumed one. -/
structure KeysInv (db : DB) : Prop where
  keys_lt : ∀ k ∈ db.keys, k.id < db.next_key_id
  keys_nodup : (db.keys.map Key.id).Nodup
  sales_lt : ∀ s ∈ db.sales, s.key_id < db.next_key_id
  sales_nodup : (db.sales.map Sale.key_id).Nodup
  sales_used : ∀ s ∈ db.sales, ∀ k ∈ db.keys, k.id = s.key_id → k.used = true

lemma markUsed_id (kid : Nat) (k0 : Key) :
    ((if k0.id == kid then { k0 with used := true } else k0) : Key).id = k0.id := by
  split <;> rfl

lemma key_eq_of_id (db : DB) (hinv : KeysInv db) (k k' : Key) (hk : k ∈ db.keys)
    (hk' : k' ∈ db.keys) (hid : k'.id = k.id) : k' = k :=
  List.inj_on_of_nodup_map hinv.keys_nodup hk' hk hid

lemma KeysInv_of_eq (db db' : DB) (hinv : KeysInv db) (hk : db'.keys = db.keys)
    (hs : db'.sales = db.sales) (hn : db'.next_key_id = db.next_key_id) : KeysInv db' := by
  refine ⟨?_, ?_, ?_, ?_, ?_⟩
  · rw [hk, hn]; exact hinv.keys_lt
  · rw [hk]; exact hinv.keys_nodup
  · rw [hs, hn]; exact hinv.sales_lt
  · rw [hs]; exact hinv.sales_nodup
  · rw [hs, hk]; exact hinv.sales_used

lemma cb_verify_frame (db : DB) (now : Int) (c : Caller) (lookup : Lookup) :
    (cb_verify db now c lookup).keys = db.keys ∧ (cb_verify db now c lookup).sales = db.sales ∧
    (cb_verify db now c lookup).next_key_id = db.next_key_id := by
  obtain ⟨h1, h2, _, _, h5⟩ := ensure_user_record_frame db now c
  unfold cb_verify
  by_cases h : (is_user_verified ((ensure_user_record db now c).1).channels lookup).1 = true <;>
    simp [h, mark_verified, h1, h2, h5]

lemma add_channel_frame (db : DB) (t : String) :
    ((add_channel db t).1).keys = db.keys ∧ ((add_channel db t).1).sales = db.sales ∧
    ((add_channel db t).1).next_key_id = db.next_key_id := by
  unfold add_channel
  by_cases h : normalizeHandle t ∈ db.channels <;> simp [h]

lemma set_cooldown_frame (db : DB) (t : String) :
    (handle_set_cooldown db t).keys = db.keys ∧ (handle_set_cooldown db t).sales = db.sales ∧
    (handle_set_cooldown db t).next_key_id = db.next_key_id := by
  unfold handle_set_cooldown
  cases hp : parsePyInt t
  · simp [hp]
  · simp only [hp]
    split_ifs <;> exact ⟨rfl, rfl, rfl⟩

lemma cb_confirm_snd (a : Int) (db : DB) (c : Caller) (pOk : Bool) :
    (cb_confirm_delete_all_keys a db c pOk).2 = db ∨
    (cb_confirm_delete_all_keys a db c pOk).2 = purge_transaction db := by
  by_cases h : is_admin a c.id c.username = false
  · left
    simp [cb_confirm_delete_all_keys, h]
  · cases hp : pOk
    · left
      simp [cb_confirm_delete_all_keys, h]
    · right
      simp [cb_confirm_delete_all_keys, h]

lemma purge_keysinv (db : DB) : KeysInv (purge_transaction db) := by
  refine ⟨?_, ?_, ?_, ?_, ?_⟩ <;> simp [purge_transaction]

lemma KeysInv_append_key (db : DB) (hinv : KeysInv db) (kt : String) (d : Int)
    (nm lk : Option String) (now : Int) :
    KeysInv { db with
        keys := db.keys ++ [{ id := db.next_key_id, key_text := kt, duration_days := d, meta_name := nm, meta_link := lk, used := false, added_at := now }]
        next_key_id := db.next_key_id + 1 } := by
  refine ⟨?_, ?_, ?_, ?_, ?_⟩
  · intro k hk
    rcases List.mem_append.mp hk with h | h
    · have h1 := hinv.keys_lt k h
      show k.id < db.next_key_id + 1
      omega
    · simp at h
      subst h
      show db.next_key_id < db.next_key_id + 1
      omega
  · show (List.map Key.id (db.keys ++ _)).Nodup
    rw [List.map_append]
    refine List.Nodup.append hinv.keys_nodup (by simp) ?_
    intro a ha hb
    simp at hb
    subst hb
    rcases List.mem_map.mp ha with ⟨k0, hk0, hid⟩
    have := hinv.keys_lt k0 hk0
    omega
  · intro s hs
    have := hinv.sales_lt s hs
    show s.key_id < db.next_key_id + 1
    omega
  · exact hinv.sales_nodup
  · intro s hs k hk hid
    rcases List.mem_append.mp hk with h | h
    · exact hinv.sales_used s hs k h hid
    · simp at h
      subst h
      have hlt := hinv.sales_lt s hs
      have hid' : db.next_key_id = s.key_id := hid
      omega

lemma add_keys_lines_inv (now : Int) (lines : List String) :
    ∀ db : DB, KeysInv db → KeysInv ((add_keys_lines now db lines).1) := by
  induction lines with
  | nil => intro db hinv; exact hinv
  | cons l rest ih =>
    intro db hinv
    cases hp : parseKeyLine l with
    | skipped =>
      simp only [add_keys_lines, hp]
      exact ih db hinv
    | badDuration =>
      simp only [add_keys_lines, hp]
      exact ih db hinv
    | parsed kt d nm lk =>
      simp only [add_keys_lines, hp]
      exact ih _ (KeysInv_append_key db hinv kt d nm lk now)

lemma add_keys_lines_keys_mem (now : Int) (lines : List String) :
    ∀ db : DB, ∀ k ∈ ((add_keys_lines now db lines).1).keys,
      k ∈ db.keys ∨ db.next_key_id ≤ k.id := by
  induction lines with
  | nil => intro db k hk; exact Or.inl hk
  | cons l rest ih =>
    intro db k hk
    cases hp : parseKeyLine l with
    | skipped =>
      simp only [add_keys_lines, hp] at hk
      exact ih db k hk
    | badDuration =>
      simp only [add_keys_lines, hp] at hk
      exact ih db k hk
    | parsed kt d nm lk =>
      simp only [add_keys_lines, hp] at hk
      rcases ih _ k hk with h | h
      · rcases List.mem_append.mp h with h1 | h1
        · exact Or.inl h1
        · simp at h1
          subst h1
          exact Or.inr (Nat.le_refl _)
      · have h' : db.next_key_id + 1 ≤ k.id := h
        exact Or.inr (by omega)

lemma applyAssign_inv (db : DB) (now uid : Int) (uname : Option String) (k : Key)
    (cid mid : Int) (hinv : KeysInv db) (hk : get_next_key db.keys = some k) :
    KeysInv (applyAssign db now uid uname k.id k.key_text k.duration_days cid mid) := by
  obtain ⟨hkmem, hkused⟩ := get_next_key_some db.keys k hk
  refine ⟨?_, ?_, ?_, ?_, ?_⟩
  · intro k' hk'
    rcases List.mem_map.mp hk' with ⟨k0, hk0, rfl⟩
    show _ < db.next_key_id
    rw [markUsed_id]
    exact hinv.keys_lt k0 hk0
  · show (List.map Key.id (List.map _ db.keys)).Nodup
    rw [List.map_map]
    have hcongr :
        List.map (Key.id ∘ fun k1 : Key => if k1.id == k.id then { k1 with used := true } else k1)
          db.keys = List.map Key.id db.keys :=
      List.map_congr_left (fun x _ => markUsed_id k.id x)
    rw [hcongr]
    exact hinv.keys_nodup
  · intro s hs
    rcases List.mem_append.mp hs with h | h
    · have := hinv.sales_lt s h
      show s.key_id < db.next_key_id
      omega
    · simp [claimSale] at h
      subst h
      show k.id < db.next_key_id
      exact hinv.keys_lt k hkmem
  · show (List.map Sale.key_id (db.sales ++ _)).Nodup
    rw [List.map_append]
    refine List.Nodup.append hinv.sales_nodup (by simp) ?_
    intro a ha hb
    simp [claimSale] at hb
    subst hb
    rcases List.mem_map.mp ha with ⟨s, hs, hsid⟩
    have := hinv.sales_used s hs k hkmem hsid.symm
    rw [hkused] at this
    simp at this
  · intro s hs k' hk' hid
    rcases List.mem_map.mp hk' with ⟨k0, hk0, rfl⟩
    by_cases hbk : (k0.id == k.id) = true
    · rw [if_pos hbk]
    · rw [if_neg hbk]
      rw [if_neg hbk] at hid
      rcases List.mem_append.mp hs with h | h
      · exact hinv.sales_used s h k0 hk0 hid
      · simp [claimSale] at h
        subst h
        have hid' : k0.id = k.id := hid
        exact absurd (by simpa using hid' : (k0.id == k.id) = true) hbk

/-- The state part of `cb_start_claim`: either the post-enrollment state,
or (commit succeeded) the assignment applied to it for the selected key. -/
lemma cb_start_claim_snd (db : DB) (now : Int) (c : Caller) (lookup : Lookup)
    (pOk : Bool) (cid mid : Int) :
    (cb_start_claim db now c lookup pOk cid mid).2 = (ensure_user_record db now c).1 ∨
    ∃ k, get_next_key ((ensure_user_record db now c).1).keys = some k ∧ pOk = true ∧
      (cb_start_claim db now c lookup pOk cid mid).2 =
        applyAssign (ensure_user_record db now c).1 now c.id c.username k.id k.key_text
          k.duration_days cid mid := by
  rcases cb_start_claim_spec db now c lookup pOk cid mid with ⟨m, heq⟩ | heq |
    ⟨k, hk, ⟨_, heq⟩ | ⟨hp, heq⟩⟩
  · left; rw [heq]
  · left; rw [heq]
  · left; rw [heq]
  · right; exact ⟨k, hk, hp, by rw [heq]⟩

lemma step_inv (db : DB) (op : Op) (hinv : KeysInv db) : KeysInv (step db op) := by
  cases op with
  | start now c =>
    obtain ⟨h1, h2, _, _, h5⟩ := ensure_user_record_frame db now c
    exact KeysInv_of_eq db _ hinv h1 h2 h5
  | verify now c lookup =>
    obtain ⟨h1, h2, h5⟩ := cb_verify_frame db now c lookup
    exact KeysInv_of_eq db _ hinv h1 h2 h5
  | claim now c lookup pOk cid mid =>
    obtain ⟨e1, e2, _, _, e5⟩ := ensure_user_record_frame db now c
    have hinv1 : KeysInv (ensure_user_record db now c).1 := KeysInv_of_eq db _ hinv e1 e2 e5
    rcases cb_start_claim_snd db now c lookup pOk cid mid with heq | ⟨k, hk, _, heq⟩
    · show KeysInv (cb_start_claim db now c lookup pOk cid mid).2
      rw [heq]
      exact hinv1
    · show KeysInv (cb_start_claim db now c lookup pOk cid mid).2
      rw [heq]
      exact applyAssign_inv (ensure_user_record db now c).1 now c.id c.username k cid mid hinv1 hk
  | addChannel t =>
    obtain ⟨h1, h2, h5⟩ := add_channel_frame db t
    exact KeysInv_of_eq db _ hinv h1 h2 h5
  | removeChannel t => exact KeysInv_of_eq db _ hinv rfl rfl rfl
  | setCooldown t =>
    obtain ⟨h1, h2, h5⟩ := set_cooldown_frame db t
    exact KeysInv_of_eq db _ hinv h1 h2 h5
  | setKeyMsg t => exact KeysInv_of_eq db _ hinv rfl rfl rfl
  | addKeys now t =>
    show KeysInv (handle_add_keys db now t).1
    exact add_keys_lines_inv now _ db hinv
  | purge a c pOk =>
    rcases cb_confirm_snd a db c pOk with heq | heq
    · show KeysInv (cb_confirm_delete_all_keys a db c pOk).2
      rw [heq]
      exact hinv
    · show KeysInv (cb_confirm_delete_all_keys a db c pOk).2
      rw [heq]
      exact purge_keysinv db

lemma reachable_inv (db : DB) (h : Reachable db) : KeysInv db := by
  induction h with
  | init => refine ⟨?_, ?_, ?_, ?_, ?_⟩ <;> simp [init_db]
  | next op a ih => exact step_inv _ op ih

lemma mono_aux (db : DB) (hinv : KeysInv db) (l : List Key) (hl : l = db.keys) :
    ∀ k ∈ db.keys, ∀ k' ∈ l, k'.id = k.id → k.used = true → k'.used = true := by
  subst hl
  intro k hk k' hk' hid hu
  rw [key_eq_of_id db hinv k k' hk hk' hid]
  exact hu

lemma flip_aux (db : DB) (hinv : KeysInv db) (l : List Key) (hl : l = db.keys)
    (k k' : Key) (hk : k ∈ db.keys) (hk' : k' ∈ l) (hid : k'.id = k.id)
    (hf : k.used = false) (ht : k'.used = true) : False := by
  subst hl
  have he := key_eq_of_id db hinv k k' hk hk' hid
  rw [he, hf] at ht
  simp at ht

lemma step_used_monotone (db : DB) (op : Op) (hinv : KeysInv db) :
    ∀ k ∈ db.keys, ∀ k' ∈ (step db op).keys, k'.id = k.id → k.used = true → k'.used = true := by
  intro k hk k' hk' hid hu
  cases op with
  | start now c => exact mono_aux db hinv _ (ensure_user_record_frame db now c).1 k hk k' hk' hid hu
  | verify now c lookup =>
    exact mono_aux db hinv _ (cb_verify_frame db now c lookup).1 k hk k' hk' hid hu
  | claim now c lookup pOk cid mid =>
    obtain ⟨e1, e2, _, _, _⟩ := ensure_user_record_frame db now c
    rcases cb_start_claim_snd db now c lookup pOk cid mid with heq | ⟨ksel, hksel, hpOk, heq⟩
    · refine mono_aux db hinv _ ?_ k hk k' hk' hid hu
      show (cb_start_claim db now c lookup pOk cid mid).2.keys = db.keys
      rw [heq]
      exact e1
    · simp only [step] at hk'
      rw [heq] at hk'
      simp only [applyAssign] at hk'
      rw [e1] at hk'
      rcases List.mem_map.mp hk' with ⟨k0, hk0, rfl⟩
      rw [markUsed_id] at hid
      have hk0k := key_eq_of_id db hinv k k0 hk hk0 hid
      subst hk0k
      by_cases hbk : (k0.id == ksel.id) = true
      · rw [if_pos hbk]
      · rw [if_neg hbk]
        exact hu
  | addChannel t => exact mono_aux db hinv _ (add_channel_frame db t).1 k hk k' hk' hid hu
  | removeChannel t => exact mono_aux db hinv _ rfl k hk k' hk' hid hu
  | setCooldown t => exact mono_aux db hinv _ (set_cooldown_frame db t).1 k hk k' hk' hid hu
  | setKeyMsg t => exact mono_aux db hinv _ rfl k hk k' hk' hid hu
  | addKeys now t =>
    simp only [step, handle_add_keys] at hk'
    rcases add_keys_lines_keys_mem now _ db k' hk' with hmem | hge
    · exact mono_aux db hinv db.keys rfl k hk k' hmem hid hu
    · exfalso
      have := hinv.keys_lt k hk
      omega
  | purge a c pOk =>
    rcases cb_confirm_snd a db c pOk with heq | heq
    · refine mono_aux db hinv _ ?_ k hk k' hk' hid hu
      show (cb_confirm_delete_all_keys a db c pOk).2.keys = db.keys
      rw [heq]
    · exfalso
      simp only [step] at hk'
      rw [heq] at hk'
      simp [purge_transaction] at hk'

lemma step_flip (db : DB) (op : Op) (hinv : KeysInv db) :
    ∀ k ∈ db.keys, ∀ k' ∈ (step db op).keys, k'.id = k.id → k.used = false → k'.used = true →
      ∃ now c lookup cid mid, op = Op.claim now c lookup true cid mid ∧
        get_next_key db.keys = some k ∧
        ∃ s, (step db op).sales = db.sales ++ [s] ∧ s.key_id = k.id ∧ s.user_id = c.id ∧
          s.assigned_at = now := by
  intro k hk k' hk' hid hf ht
  cases op with
  | start now c =>
    exact (flip_aux db hinv _ (ensure_user_record_frame db now c).1 k k' hk hk' hid hf ht).elim
  | verify now c lookup =>
    exact (flip_aux db hinv _ (cb_verify_frame db now c lookup).1 k k' hk hk' hid hf ht).elim
  | claim now c lookup pOk cid mid =>
    obtain ⟨e1, e2, _, _, _⟩ := ensure_user_record_frame db now c
    rcases cb_start_claim_snd db now c lookup pOk cid mid with heq | ⟨ksel, hksel, hpOk, heq⟩
    · refine (flip_aux db hinv _ ?_ k k' hk hk' hid hf ht).elim
      show (cb_start_claim db now c lookup pOk cid mid).2.keys = db.keys
      rw [heq]
      exact e1
    · subst hpOk
      simp only [step] at hk' ⊢
      rw [heq] at hk'
      simp only [applyAssign] at hk'
      rw [e1] at hk'
      rcases List.mem_map.mp hk' with ⟨k0, hk0, rfl⟩
      rw [markUsed_id] at hid
      have hk0k := key_eq_of_id db hinv k k0 hk hk0 hid
      subst hk0k
      by_cases hbk : (k0.id == ksel.id) = true
      · have hidk : k0.id = ksel.id := by simpa using hbk
        rw [e1] at hksel
        have hkselmem := get_next_key_some db.keys ksel hksel
        have hkk : ksel = k0 := key_eq_of_id db hinv k0 ksel hk hkselmem.1 hidk.symm
        subst hkk
        refine ⟨now, c, lookup, cid, mid, rfl, hksel, ?_⟩
        refine ⟨claimSale (ensure_user_record db now c).1 now c.id c.username ksel.id ksel.key_text ksel.duration_days cid mid, ?_, rfl, rfl, rfl⟩
        show (cb_start_claim db now c lookup true cid mid).2.sales = db.sales ++ _
        rw [heq]
        simp only [applyAssign]
        rw [e2]
      · rw [if_neg hbk] at ht
        rw [hf] at ht
        simp at ht
  | addChannel t =>
    exact (flip_aux db hinv _ (add_channel_frame db t).1 k k' hk hk' hid hf ht).elim
  | removeChannel t => exact (flip_aux db hinv _ rfl k k' hk hk' hid hf ht).elim
  | setCooldown t =>
    exact (flip_aux db hinv _ (set_cooldown_frame db t).1 k k' hk hk' hid hf ht).elim
  | setKeyMsg t => exact (flip_aux db hinv _ rfl k k' hk hk' hid hf ht).elim
  | addKeys now t =>
    simp only [step, handle_add_keys] at hk'
    rcases add_keys_lines_keys_mem now _ db k' hk' with hmem | hge
    · exact (flip_aux db hinv db.keys rfl k k' hk hmem hid hf ht).elim
    · exfalso
      have := hinv.keys_lt k hk
      omega
  | purge a c pOk =>
    rcases cb_confirm_snd a db c pOk with heq | heq
    · refine (flip_aux db hinv _ ?_ k k' hk hk' hid hf ht).elim
      show (cb_confirm_delete_all_keys a db c pOk).2.keys = db.keys
      rw [heq]
    · exfalso
      simp only [step] at hk'
      rw [heq] at hk'
      simp [purge_transaction] at hk'

/-- C8: in every state reachable from the empty database, the claim
records reference pairwise-distinct key ids (each key consumed by at most
one claim record); across any operation a key's `used` flag never falls
back from true to false while the key exists (purge deletes the row
instead); and the only transition that flips a key from unconsumed to
consumed is a claim whose commit succeeded, which selects exactly that key
and appends the one claim record referencing it. -/
theorem c8_key_claim_invariant (db : DB) (h : Reachable db) :
    (db.sales.map Sale.key_id).Nodup ∧
    (∀ op : Op, ∀ k ∈ db.keys, ∀ k' ∈ (step db op).keys, k'.id = k.id →
      k.used = true → k'.used = true) ∧
    (∀ op : Op, ∀ k ∈ db.keys, ∀ k' ∈ (step db op).keys, k'.id = k.id →
      k.used = false → k'.used = true →
      ∃ now c lookup cid mid, op = Op.claim now c lookup true cid mid ∧
        get_next_key db.keys = some k ∧
        ∃ s, (step db op).sales = db.sales ++ [s] ∧ s.key_id = k.id ∧ s.user_id = c.id ∧
          s.assigned_at = now) := by
  have hinv := reachable_inv db h
  exact ⟨hinv.sales_nodup, fun op => step_used_monotone db op hinv,
    fun op => step_flip db op hinv⟩

/-- Witness for C8 at the initial database. -/
theorem c8_key_claim_invariant_witness :
    (init_db.sales.map Sale.key_id).Nodup :=
  (c8_key_claim_invariant init_db Reachable.init).1

end KeyBot
